import Mathlib

/-!
Verification of the frame-candidate generation, scoring and top-K selection
core of the thumbnail server (`src/server/index.js`).

The JavaScript code is shallowly embedded over exact rationals (`ℚ`):
JS numbers are modelled as exact rational arithmetic, fallible operations
(child-process invocations) as `Except Unit` / `Option` values, and the
stable `Array.prototype.sort` as a stable insertion sort.  Strings handed
to `Number(...)` are modelled as lists of characters together with a
model of the ECMAScript string-to-number conversion.
-/

namespace Thumbnail

/-! ## A model of ECMAScript `Number(string)`

`ffprobeDurationSeconds` converts the probed text with JavaScript's
`Number(String(stdout).trim())` and rejects non-finite results.  We model
the result of the conversion as either NaN, one of the two infinities
(from the `Infinity` literals), or a finite exact rational.  Float
rounding and overflow of huge literals are not modelled: values are kept
as exact rationals. -/

inductive JSNumber where
  | nan : JSNumber
  | posInf : JSNumber
  | negInf : JSNumber
  | finite : ℚ → JSNumber
deriving DecidableEq, Repr

/-- Whitespace as stripped by `String.prototype.trim` (ASCII fragment). -/
def isWS (c : Char) : Bool := c.isWhitespace

/-- Drop leading and trailing whitespace, as `String.prototype.trim`. -/
def jsTrim (cs : List Char) : List Char :=
  ((cs.dropWhile isWS).reverse.dropWhile isWS).reverse

/-- Value of a decimal digit character. -/
def digit? (c : Char) : Option ℕ :=
  if c.isDigit then some (c.toNat - 48) else none

/-- Value of a hexadecimal digit character. -/
def hexDigit? (c : Char) : Option ℕ :=
  if c.isDigit then some (c.toNat - 48)
  else if 'a' ≤ c ∧ c ≤ 'f' then some (c.toNat - 87)
  else if 'A' ≤ c ∧ c ≤ 'F' then some (c.toNat - 55)
  else none

/-- Value of a binary digit character. -/
def binDigit? (c : Char) : Option ℕ :=
  if c = '0' then some 0 else if c = '1' then some 1 else none

/-- Value of an octal digit character. -/
def octDigit? (c : Char) : Option ℕ :=
  if c.isDigit ∧ c.toNat ≤ 55 then some (c.toNat - 48) else none

/-- Take the longest run of digits (under `dig`) from the front. -/
def takeDigits (dig : Char → Option ℕ) : List Char → List ℕ × List Char
  | [] => ([], [])
  | c :: cs =>
    match dig c with
    | some d =>
      let p := takeDigits dig cs
      (d :: p.1, p.2)
    | none => ([], c :: cs)

/-- Value of a digit string in the given base. -/
def natOfDigits (base : ℕ) (ds : List ℕ) : ℕ :=
  ds.foldl (fun acc d => acc * base + d) 0

/-- Parse an unsigned ECMAScript decimal literal
`DecimalDigits [. DecimalDigits] [ExponentPart]`, requiring the whole
input to be consumed; `none` is NaN. -/
def parseDec (cs : List Char) : Option ℚ :=
  let p := takeDigits digit? cs
  let ip := p.1
  let q : List ℕ × List Char :=
    match p.2 with
    | '.' :: rest => takeDigits digit? rest
    | _ => ([], p.2)
  let fp := q.1
  let hadDot : Bool := match p.2 with | '.' :: _ => true | _ => false
  if ip = [] ∧ (fp = [] ∨ hadDot = false) then none
  else
    let mant : ℚ := (natOfDigits 10 ip : ℚ) + (natOfDigits 10 fp : ℚ) / ((10 : ℚ) ^ fp.length)
    match q.2 with
    | [] => some mant
    | e :: rest =>
      if e = 'e' ∨ e = 'E' then
        let se : Bool × List Char :=
          match rest with
          | '+' :: r => (false, r)
          | '-' :: r => (true, r)
          | _ => (false, rest)
        let ed := takeDigits digit? se.2
        if ed.1 = [] ∨ ed.2 ≠ [] then none
        else
          let expo : ℤ := if se.1 then -(natOfDigits 10 ed.1 : ℤ) else (natOfDigits 10 ed.1 : ℤ)
          some (mant * (10 : ℚ) ^ expo)
      else none

/-- Parse a radix-prefixed integer body (after `0x`, `0b`, `0o`). -/
def parseRadix (base : ℕ) (dig : Char → Option ℕ) (cs : List Char) : JSNumber :=
  let p := takeDigits dig cs
  if p.1 = [] ∨ p.2 ≠ [] then JSNumber.nan
  else JSNumber.finite ((natOfDigits base p.1 : ℕ) : ℚ)

/-- Unsigned part of a string numeric literal: `Infinity` or a decimal. -/
def parseUnsignedDec (cs : List Char) : JSNumber :=
  if cs = ['I', 'n', 'f', 'i', 'n', 'i', 't', 'y'] then JSNumber.posInf
  else
    match parseDec cs with
    | some v => JSNumber.finite v
    | none => JSNumber.nan

/-- Model of ECMAScript `Number(string)` (ToNumber on strings): trims
whitespace, maps the empty remainder to `0`, accepts signed decimal
literals, `Infinity`, and unsigned `0x`/`0b`/`0o` literals; everything
else is NaN. -/
def jsNumberOfChars (s : List Char) : JSNumber :=
  match jsTrim s with
  | [] => JSNumber.finite 0
  | '+' :: rest => parseUnsignedDec rest
  | '-' :: rest =>
    match parseUnsignedDec rest with
    | JSNumber.finite v => JSNumber.finite (-v)
    | JSNumber.posInf => JSNumber.negInf
    | x => x
  | '0' :: 'x' :: rest => parseRadix 16 hexDigit? rest
  | '0' :: 'X' :: rest => parseRadix 16 hexDigit? rest
  | '0' :: 'b' :: rest => parseRadix 2 binDigit? rest
  | '0' :: 'B' :: rest => parseRadix 2 binDigit? rest
  | '0' :: 'o' :: rest => parseRadix 8 octDigit? rest
  | '0' :: 'O' :: rest => parseRadix 8 octDigit? rest
  | cs => parseUnsignedDec cs

/-! ## The Prober (`ffprobeDurationSeconds`)

```js
const n = Number(String(stdout).trim());
if (!Number.isFinite(n)) throw new Error("Bad duration");
return n;
```
The process invocation itself is abstracted away: the function below is
given the text that `ffprobe` printed on stdout. -/

def ffprobeDurationSeconds (stdout : List Char) : Except Unit ℚ :=
  match jsNumberOfChars (jsTrim stdout) with
  | JSNumber.finite n => Except.ok n
  | _ => Except.error ()

/-! ## The Frame Scorer (`scoreFrameJpg`)

The two ffmpeg invocations return `signalstats` dictionaries; the fields
read by the code are `YAVG`/`YSTD` of the base pass and `YAVG` of the
edge pass.  A field is an optional `JSNumber`: `none` models an absent
key, `some .nan` a key whose `[0-9.]+` text did not parse to a number
(`Number.isFinite` is false for both).  A whole failed invocation is
modelled by `none` at the `Option SignalStats` level. -/

structure SignalStats where
  yavg : Option JSNumber
  ystd : Option JSNumber
deriving DecidableEq, Repr

/-- The empty dictionary `{}` assigned when the edge pass throws. -/
def emptyStats : SignalStats := ⟨none, none⟩

/-- `Number.isFinite(v) ? v : dflt` on an optional field. -/
def finiteOr (v : Option JSNumber) (dflt : ℚ) : ℚ :=
  match v with
  | some (JSNumber.finite q) => q
  | _ => dflt

/-- `exposure = 1 - min(1, |yavg - 128| / 128)`. -/
def exposureOf (yavg : ℚ) : ℚ := 1 - min 1 (|yavg - 128| / 128)

/-- `contrast = min(1, ystd / 64)`. -/
def contrastOf (ystd : ℚ) : ℚ := min 1 (ystd / 64)

/-- `sharp = min(1, edge / 40)`. -/
def sharpnessOf (edge : ℚ) : ℚ := min 1 (edge / 40)

/-- `scoreFrameJpg`: `base = none` models the first ffmpeg invocation
throwing (the code returns `0.0`); `edgeRun = none` models the second
invocation throwing (the code proceeds with `edgeStats = {}`). -/
def scoreFrameJpg (base : Option SignalStats) (edgeRun : Option SignalStats) : ℚ :=
  match base with
  | none => 0
  | some b =>
    let edgeStats := edgeRun.getD emptyStats
    let yavg := finiteOr b.yavg 128
    let ystd := finiteOr b.ystd 0
    let edge := finiteOr edgeStats.yavg 0
    exposureOf yavg * 0.45 + contrastOf ystd * 0.30 + sharpnessOf edge * 0.25

/-! ## The Candidate Planner (`makeCandidateTimes`) -/

/-- `Math.min(maxCandidates, Math.max(40, Math.floor(duration / 0.35)))`. -/
def candidateCount (duration : ℚ) (maxCandidates : ℤ) : ℤ :=
  min maxCandidates (max 40 ⌊duration / 0.35⌋)

/-- Body of the planner loop for `i = 1..count` (here `i` is the 0-based
index, so the loop variable is `i + 1`):
`Math.max(0, Math.min(duration - 0.15, start + step * (i+1)))`. -/
def candidateTime (duration : ℚ) (maxCandidates : ℤ) (i : ℕ) : ℚ :=
  let start := duration * 0.06
  let stop := duration * 0.94
  let span := max 0 (stop - start)
  let count := candidateCount duration maxCandidates
  let step := span / ((count : ℚ) + 1)
  max 0 (min (duration - 0.15) (start + step * ((i : ℚ) + 1)))

/-- `makeCandidateTimes(duration, maxCandidates)`. -/
def makeCandidateTimes (duration : ℚ) (maxCandidates : ℤ) : List ℚ :=
  (List.range (candidateCount duration maxCandidates).toNat).map
    (candidateTime duration maxCandidates)

/-! ## The Top-K Selector (lines 186–207 of `autoPickTop5Times`) -/

/-- A scored candidate `{ ts, score }`. -/
structure Scored where
  ts : ℚ
  score : ℚ
deriving DecidableEq, Repr

/-- Comparator of `scored.sort((a, b) => b.score - a.score)`. -/
def scoreGE (a b : Scored) : Prop := b.score ≤ a.score

/-- Comparator of `picks.sort((a, b) => a.ts - b.ts)`. -/
def tsLE (a b : Scored) : Prop := a.ts ≤ b.ts

instance : DecidableRel scoreGE := fun a b => inferInstanceAs (Decidable (b.score ≤ a.score))

instance : DecidableRel tsLE := fun a b => inferInstanceAs (Decidable (a.ts ≤ b.ts))

instance : IsTotal Scored scoreGE := ⟨fun a b => le_total b.score a.score⟩

instance : IsTrans Scored scoreGE := ⟨fun _ _ _ h1 h2 => le_trans h2 h1⟩

instance : IsTotal Scored tsLE := ⟨fun a b => le_total a.ts b.ts⟩

instance : IsTrans Scored tsLE := ⟨fun _ _ _ h1 h2 => le_trans h1 h2⟩

/-- Stable sort descending by score (JS `Array.prototype.sort` is stable). -/
def sortScoreDesc (l : List Scored) : List Scored := List.insertionSort scoreGE l

/-- Stable sort ascending by timestamp. -/
def sortByTs (l : List Scored) : List Scored := List.insertionSort tsLE l

/-- The spacing test `Math.abs(p.ts - item.ts) >= g`. -/
def gapOK (g : ℚ) (a b : Scored) : Prop := g ≤ |a.ts - b.ts|

instance (g : ℚ) : DecidableRel (gapOK g) :=
  fun a b => inferInstanceAs (Decidable (g ≤ |a.ts - b.ts|))

/-- One greedy pass of the selector:
```js
for (const item of scored) {
  if (picks.length >= 5) break;
  if (picks.every((p) => Math.abs(p.ts - item.ts) >= g)) picks.push(item);
}
``` -/
def greedyPass (g : ℚ) (picks : List Scored) : List Scored → List Scored
  | [] => picks
  | item :: rest =>
    if 5 ≤ picks.length then picks
    else if ∀ p ∈ picks, gapOK g p item then greedyPass g (picks ++ [item]) rest
    else greedyPass g picks rest

/-- `const minGap = Math.max(1.2, duration * 0.06)`. -/
def minGapOf (duration : ℚ) : ℚ := max 1.2 (duration * 0.06)

/-- The picks accepted by the first (strict-gap) greedy pass. -/
def pass1Picks (duration : ℚ) (scored : List Scored) : List Scored :=
  greedyPass (minGapOf duration) [] (sortScoreDesc scored)

/-- The picks after the optional relaxed (1.0 second) second pass. -/
def rawPicks (duration : ℚ) (scored : List Scored) : List Scored :=
  let p := pass1Picks duration scored
  if p.length < 5 then greedyPass 1 p (sortScoreDesc scored) else p

/-- The Top-K Selector: both greedy passes followed by the final
chronological sort (`picks.sort((a, b) => a.ts - b.ts)`). -/
def selectTop (duration : ℚ) (scored : List Scored) : List Scored :=
  sortByTs (rawPicks duration scored)

/-! ## The scoring loop and `autoPickTop5Times`

The loop body extracts a frame at each candidate timestamp (`extractJpgAt`,
which may throw — there is no per-candidate catch in the source) and then
scores it (`scoreFrameJpg` never throws, so scoring is a total function of
the timestamp once extraction succeeded). -/

def scoreLoop (extract : ℚ → Except Unit Unit) (scoreOf : ℚ → ℚ) :
    List ℚ → Except Unit (List Scored)
  | [] => Except.ok []
  | ts :: rest =>
    match extract ts with
    | Except.error e => Except.error e
    | Except.ok _ =>
      match scoreLoop extract scoreOf rest with
      | Except.error e => Except.error e
      | Except.ok l => Except.ok (⟨ts, scoreOf ts⟩ :: l)

/-- `autoPickTop5Times`, with the two external effects abstracted as
parameters: the probed duration (result of `ffprobeDurationSeconds`) and
the per-timestamp extraction outcome. -/
def autoPickTop5Times (probe : Except Unit ℚ) (extract : ℚ → Except Unit Unit)
    (scoreOf : ℚ → ℚ) : Except Unit (ℚ × List Scored) :=
  match probe with
  | Except.error e => Except.error e
  | Except.ok duration =>
    match scoreLoop extract scoreOf (makeCandidateTimes duration 180) with
    | Except.error e => Except.error e
    | Except.ok scored => Except.ok (duration, selectTop duration scored)

/-! ## Selector lemmas -/

/-- The spacing test is symmetric. -/
theorem gapOK_symm {g : ℚ} : ∀ {a b : Scored}, gapOK g a b → gapOK g b a := by
  intro a b h
  unfold gapOK at h ⊢
  rwa [abs_sub_comm]

/-- A greedy pass never removes picks already accepted. -/
theorem greedyPass_mem_init (g : ℚ) (l : List Scored) :
    ∀ init : List Scored, ∀ x ∈ init, x ∈ greedyPass g init l := by
  induction l with
  | nil => intro init x hx; simpa [greedyPass] using hx
  | cons item rest ih =>
    intro init x hx
    simp only [greedyPass]
    split
    · exact hx
    · split
      · exact ih (init ++ [item]) x (List.mem_append_left _ hx)
      · exact ih init x hx

/-- Every element of a greedy pass's result comes from the initial picks
or from the walked list. -/
theorem greedyPass_subset (g : ℚ) (l : List Scored) :
    ∀ init : List Scored, ∀ x ∈ greedyPass g init l, x ∈ init ∨ x ∈ l := by
  induction l with
  | nil => intro init x hx; left; simpa [greedyPass] using hx
  | cons item rest ih =>
    intro init x hx
    simp only [greedyPass] at hx
    split at hx
    · exact Or.inl hx
    · split at hx
      · rcases ih (init ++ [item]) x hx with h | h
        · rcases List.mem_append.mp h with h' | h'
          · exact Or.inl h'
          · exact Or.inr (by simpa using Or.inl (List.mem_singleton.mp h'))
        · exact Or.inr (List.mem_cons_of_mem _ h)
      · rcases ih init x hx with h | h
        · exact Or.inl h
        · exact Or.inr (List.mem_cons_of_mem _ h)

/-- A greedy pass preserves the pairwise-gap invariant of its accumulator:
a candidate is only accepted after testing against every current pick. -/
theorem greedyPass_pairwise (g : ℚ) (l : List Scored) :
    ∀ init : List Scored, init.Pairwise (gapOK g) →
      (greedyPass g init l).Pairwise (gapOK g) := by
  induction l with
  | nil => intro init h; simpa [greedyPass] using h
  | cons item rest ih =>
    intro init h
    simp only [greedyPass]
    split
    · exact h
    · split
      · rename_i hall
        refine ih (init ++ [item]) ?_
        refine List.pairwise_append.mpr ⟨h, List.pairwise_singleton _ _, ?_⟩
        intro a ha b hb
        rw [List.mem_singleton.mp hb]
        exact hall a ha
      · exact ih init h

/-- Weakening the pairwise gap bound. -/
theorem pairwise_gap_mono {g g' : ℚ} (hg : g' ≤ g) {l : List Scored}
    (h : l.Pairwise (gapOK g)) : l.Pairwise (gapOK g') :=
  h.imp fun hab => le_trans hg hab

/-- When all walked candidates already satisfy the gap against each other
(and at most five are in play), the greedy pass accepts every one. -/
theorem greedyPass_accept_all (g : ℚ) (l : List Scored) :
    ∀ init : List Scored, (init ++ l).Pairwise (gapOK g) →
      (init ++ l).length ≤ 5 → greedyPass g init l = init ++ l := by
  induction l with
  | nil => intro init _ _; simp [greedyPass]
  | cons item rest ih =>
    intro init hp hlen
    simp only [greedyPass]
    have hlt : ¬ 5 ≤ init.length := by
      simp only [List.length_append, List.length_cons] at hlen
      omega
    rw [if_neg hlt]
    have hall : ∀ p ∈ init, gapOK g p item := by
      intro p hp'
      exact (List.pairwise_append.mp hp).2.2 p hp' item (List.mem_cons_self _ _)
    rw [if_pos hall]
    have hre : init ++ item :: rest = (init ++ [item]) ++ rest := by simp
    rw [hre] at hp hlen
    rw [ih (init ++ [item]) hp hlen]
    simp

/-- A pass over candidates that are all already picked adds nothing
(each fails its own gap test at distance zero). -/
theorem greedyPass_no_new {g : ℚ} (hg : 0 < g) (l : List Scored) :
    ∀ init : List Scored, (∀ x ∈ l, x ∈ init) → greedyPass g init l = init := by
  induction l with
  | nil => intro init _; simp [greedyPass]
  | cons item rest ih =>
    intro init hsub
    simp only [greedyPass]
    split
    · rfl
    · have hmem : item ∈ init := hsub item (List.mem_cons_self _ _)
      have hnot : ¬ ∀ p ∈ init, gapOK g p item := by
        intro hall
        have := hall item hmem
        unfold gapOK at this
        simp only [sub_self, abs_zero] at this
        exact absurd this (not_le.mpr hg)
      rw [if_neg hnot]
      exact ih init fun x hx => hsub x (List.mem_cons_of_mem _ hx)

/-- The score-descending sort is a permutation of its input. -/
theorem sortScoreDesc_perm (l : List Scored) : (sortScoreDesc l).Perm l :=
  List.perm_insertionSort _ _

/-- The chronological sort is a permutation of its input. -/
theorem sortByTs_perm (l : List Scored) : (sortByTs l).Perm l :=
  List.perm_insertionSort _ _

/-- The chronological sort is sorted by timestamp. -/
theorem sortByTs_sorted (l : List Scored) : List.Sorted tsLE (sortByTs l) :=
  List.sorted_insertionSort _ _

/-- The score sort is sorted descending by score. -/
theorem sortScoreDesc_sorted (l : List Scored) : List.Sorted scoreGE (sortScoreDesc l) :=
  List.sorted_insertionSort _ _

/-- The dynamic minimum gap is at least one second. -/
theorem one_le_minGapOf (d : ℚ) : 1 ≤ minGapOf d :=
  le_trans (by norm_num) (le_max_left (1.2 : ℚ) (d * 0.06))

/-- The first pass's picks respect the dynamic minimum gap pairwise. -/
theorem pass1Picks_pairwise (d : ℚ) (l : List Scored) :
    (pass1Picks d l).Pairwise (gapOK (minGapOf d)) :=
  greedyPass_pairwise _ _ [] (List.Pairwise.nil)

/-- After the optional relaxed pass, picks are still pairwise at least
one second apart. -/
theorem rawPicks_pairwise (d : ℚ) (l : List Scored) :
    (rawPicks d l).Pairwise (gapOK 1) := by
  have h1 : (pass1Picks d l).Pairwise (gapOK 1) :=
    pairwise_gap_mono (one_le_minGapOf d) (pass1Picks_pairwise d l)
  show List.Pairwise (gapOK 1)
    (if (pass1Picks d l).length < 5 then greedyPass 1 (pass1Picks d l) (sortScoreDesc l)
     else pass1Picks d l)
  split
  · exact greedyPass_pairwise 1 _ _ h1
  · exact h1

/-! ## Planner lemmas -/

/-- The candidate count never drops below 40. -/
theorem forty_le_candidateCount (d : ℚ) : 40 ≤ candidateCount d 180 :=
  le_min (by norm_num) (le_max_left _ _)

/-- The candidate count never exceeds `maxCandidates = 180`. -/
theorem candidateCount_le (d : ℚ) : candidateCount d 180 ≤ 180 := min_le_left _ _

/-- The planner emits exactly `count` timestamps. -/
theorem length_makeCandidateTimes (d : ℚ) (mc : ℤ) :
    (makeCandidateTimes d mc).length = (candidateCount d mc).toNat := by
  simp [makeCandidateTimes]

/-- The count is nonnegative, so `toNat` is faithful. -/
theorem candidateCount_cast_toNat (d : ℚ) :
    ((candidateCount d 180).toNat : ℤ) = candidateCount d 180 :=
  Int.toNat_of_nonneg (le_trans (by norm_num) (forty_le_candidateCount d))

/-- The candidate count is monotone in the duration. -/
theorem candidateCount_mono {d d' : ℚ} (h : d ≤ d') :
    candidateCount d 180 ≤ candidateCount d' 180 := by
  unfold candidateCount
  have hfl : ⌊d / 0.35⌋ ≤ ⌊d' / 0.35⌋ := by
    apply Int.floor_le_floor
    have h35 : (0 : ℚ) < 0.35 := by norm_num
    exact (div_le_div_iff_of_pos_right h35).mpr h
  exact min_le_min le_rfl (max_le_max le_rfl hfl)

/-- For durations of at least 2.5 seconds neither clamp fires: the `i`-th
timestamp is exactly `start + step * (i+1)`. -/
theorem candidateTime_eq_of_ge (d : ℚ) (hd : 5/2 ≤ d) (i : ℕ)
    (hi : i < (candidateCount d 180).toNat) :
    candidateTime d 180 i =
      d * 0.06 + d * 0.88 / ((candidateCount d 180 : ℚ) + 1) * ((i : ℚ) + 1) := by
  have hd0 : (0 : ℚ) < d := lt_of_lt_of_le (by norm_num) hd
  have hcount : (40 : ℚ) ≤ ((candidateCount d 180 : ℤ) : ℚ) := by
    exact_mod_cast forty_le_candidateCount d
  have hiZ : (i : ℤ) < candidateCount d 180 := Int.lt_toNat.mp hi
  have hi1 : (i : ℚ) + 1 ≤ ((candidateCount d 180 : ℤ) : ℚ) := by
    have := Int.add_one_le_iff.mpr hiZ
    exact_mod_cast this
  have hCpos : (0 : ℚ) < ((candidateCount d 180 : ℤ) : ℚ) + 1 := by linarith
  have hspan : max 0 (d * 0.94 - d * 0.06) = d * 0.88 := by
    rw [max_eq_right] <;> nlinarith
  have hfrac : ((i : ℚ) + 1) / (((candidateCount d 180 : ℤ) : ℚ) + 1) < 1 :=
    (div_lt_one hCpos).mpr (by linarith)
  have hterm : d * 0.88 / (((candidateCount d 180 : ℤ) : ℚ) + 1) * ((i : ℚ) + 1)
      < d * 0.88 := by
    have h88 : (0 : ℚ) < d * 0.88 := by nlinarith
    have heq : d * 0.88 / (((candidateCount d 180 : ℤ) : ℚ) + 1) * ((i : ℚ) + 1)
        = d * 0.88 * (((i : ℚ) + 1) / (((candidateCount d 180 : ℤ) : ℚ) + 1)) := by
      ring
    rw [heq]
    nlinarith
  have htermpos : 0 < d * 0.88 / (((candidateCount d 180 : ℤ) : ℚ) + 1) * ((i : ℚ) + 1) := by
    have : (0:ℚ) < (i : ℚ) + 1 := by positivity
    have h88 : (0 : ℚ) < d * 0.88 := by nlinarith
    positivity
  simp only [candidateTime, hspan]
  rw [min_eq_right (by nlinarith), max_eq_right (by nlinarith)]

/-- For durations of at least 2.5 seconds every emitted timestamp lies
strictly between the six-percent margins and at most `duration - 0.15`. -/
theorem candidateTime_bounds (d : ℚ) (hd : 5/2 ≤ d) (i : ℕ)
    (hi : i < (candidateCount d 180).toNat) :
    d * 0.06 < candidateTime d 180 i ∧ candidateTime d 180 i < d * 0.94 ∧
      candidateTime d 180 i ≤ d - 0.15 := by
  have hd0 : (0 : ℚ) < d := lt_of_lt_of_le (by norm_num) hd
  have hcount : (40 : ℚ) ≤ ((candidateCount d 180 : ℤ) : ℚ) := by
    exact_mod_cast forty_le_candidateCount d
  have hiZ : (i : ℤ) < candidateCount d 180 := Int.lt_toNat.mp hi
  have hi1 : (i : ℚ) + 1 ≤ ((candidateCount d 180 : ℤ) : ℚ) := by
    have := Int.add_one_le_iff.mpr hiZ
    exact_mod_cast this
  have hCpos : (0 : ℚ) < ((candidateCount d 180 : ℤ) : ℚ) + 1 := by linarith
  have hfrac : ((i : ℚ) + 1) / (((candidateCount d 180 : ℤ) : ℚ) + 1) < 1 :=
    (div_lt_one hCpos).mpr (by linarith)
  have h88 : (0 : ℚ) < d * 0.88 := by nlinarith
  have hterm : d * 0.88 / (((candidateCount d 180 : ℤ) : ℚ) + 1) * ((i : ℚ) + 1)
      < d * 0.88 := by
    have heq : d * 0.88 / (((candidateCount d 180 : ℤ) : ℚ) + 1) * ((i : ℚ) + 1)
        = d * 0.88 * (((i : ℚ) + 1) / (((candidateCount d 180 : ℤ) : ℚ) + 1)) := by
      ring
    rw [heq]; nlinarith
  have htermpos : 0 < d * 0.88 / (((candidateCount d 180 : ℤ) : ℚ) + 1) * ((i : ℚ) + 1) := by
    have : (0:ℚ) < (i : ℚ) + 1 := by positivity
    positivity
  rw [candidateTime_eq_of_ge d hd i hi]
  refine ⟨by linarith, by linarith, by nlinarith⟩

/-- For durations of at least 2.5 seconds the emitted timestamps strictly
increase with the index. -/
theorem candidateTime_strict_mono (d : ℚ) (hd : 5/2 ≤ d) {i j : ℕ} (hij : i < j)
    (hj : j < (candidateCount d 180).toNat) :
    candidateTime d 180 i < candidateTime d 180 j := by
  have hd0 : (0 : ℚ) < d := lt_of_lt_of_le (by norm_num) hd
  have hcount : (40 : ℚ) ≤ ((candidateCount d 180 : ℤ) : ℚ) := by
    exact_mod_cast forty_le_candidateCount d
  have hCpos : (0 : ℚ) < ((candidateCount d 180 : ℤ) : ℚ) + 1 := by linarith
  have hstep : (0 : ℚ) < d * 0.88 / (((candidateCount d 180 : ℤ) : ℚ) + 1) := by
    have h88 : (0 : ℚ) < d * 0.88 := by nlinarith
    positivity
  rw [candidateTime_eq_of_ge d hd i (lt_trans hij hj), candidateTime_eq_of_ge d hd j hj]
  have hij' : (i : ℚ) + 1 < (j : ℚ) + 1 := by
    have : (i : ℚ) < (j : ℚ) := by exact_mod_cast hij
    linarith
  nlinarith

/-- For nonpositive durations the count formula still yields 40. -/
theorem candidateCount_of_nonpos (d : ℚ) (hd : d ≤ 0) : candidateCount d 180 = 40 := by
  unfold candidateCount
  have h0 : d / 0.35 ≤ 0 := by
    rw [div_nonpos_iff]
    right
    exact ⟨hd, by norm_num⟩
  have h1 : ⌊d / 0.35⌋ ≤ 0 := by
    calc ⌊d / 0.35⌋ ≤ ⌊(0 : ℚ)⌋ := Int.floor_le_floor h0
    _ = 0 := by simp
  rw [max_eq_left (le_trans h1 (by norm_num)), min_eq_right (by norm_num)]

/-- For nonpositive durations every emitted timestamp collapses to 0:
the span is empty and the clamp `max(0, min(duration-0.15, t))` bites. -/
theorem candidateTime_of_nonpos (d : ℚ) (hd : d ≤ 0) (i : ℕ) :
    candidateTime d 180 i = 0 := by
  have hspan : max 0 (d * 0.94 - d * 0.06) = 0 := max_eq_left (by nlinarith)
  simp only [candidateTime, hspan]
  rw [zero_div, zero_mul, add_zero]
  rw [min_eq_left (by nlinarith), max_eq_left (by nlinarith)]

/-! ## Scoring-loop lemmas -/

/-- The scoring loop succeeds exactly when extraction succeeds on every
candidate: there is no per-candidate recovery in the loop. -/
theorem scoreLoop_isOk_iff (extract : ℚ → Except Unit Unit) (scoreOf : ℚ → ℚ) :
    ∀ l : List ℚ, (scoreLoop extract scoreOf l).isOk = true ↔
      ∀ c ∈ l, (extract c).isOk = true := by
  intro l
  induction l with
  | nil => simp [scoreLoop, Except.isOk, Except.toBool]
  | cons ts rest ih =>
    simp only [scoreLoop]
    cases hx : extract ts with
    | error e =>
      simp only [Except.isOk, Except.toBool, List.mem_cons]
      constructor
      · intro h; cases h
      · intro h
        have := h ts (Or.inl rfl)
        rw [hx] at this
        cases this
    | ok u =>
      cases hrec : scoreLoop extract scoreOf rest with
      | error e =>
        simp only [Except.isOk, Except.toBool, List.mem_cons]
        rw [hrec] at ih
        simp only [Except.isOk, Except.toBool] at ih
        constructor
        · intro h; cases h
        · intro h
          have : ∀ c ∈ rest, (extract c).isOk = true := fun c hc => h c (Or.inr hc)
          have := ih.mpr this
          cases this
      | ok l' =>
        simp only [Except.isOk, Except.toBool, List.mem_cons]
        rw [hrec] at ih
        simp only [Except.isOk, Except.toBool] at ih
        constructor
        · intro _ c hc
          rcases hc with rfl | hc
          · rw [hx]
          · exact ih.mp trivial c hc
        · intro _; trivial

/-- An `Except Unit` value that is not ok is `error ()`. -/
theorem except_unit_eq_error {α : Type} (e : Except Unit α)
    (h : ¬ e.isOk = true) : e = Except.error () := by
  cases e with
  | error u => cases u; rfl
  | ok a => simp [Except.isOk, Except.toBool] at h

/-- Evaluation form of the spacing test when the timestamps are ordered. -/
theorem gapOK_eval (g : ℚ) (a b : Scored) (h : a.ts ≤ b.ts) :
    gapOK g a b ↔ g ≤ b.ts - a.ts := by
  unfold gapOK
  rw [abs_sub_comm, abs_of_nonneg (sub_nonneg.mpr h)]

/-- For durations of at least 2.5 seconds the emitted list is strictly
ascending. -/
theorem makeCandidateTimes_pairwise_lt (d : ℚ) (hd : 5/2 ≤ d) :
    (makeCandidateTimes d 180).Pairwise (· < ·) := by
  unfold makeCandidateTimes
  rw [List.pairwise_map]
  refine List.Pairwise.imp_of_mem ?_ (List.pairwise_lt_range _)
  intro i j hi hj hij
  exact candidateTime_strict_mono d hd hij (List.mem_range.mp hj)

/-- `⌊10/0.35⌋ = 28`, so a ten-second video gets the minimum of 40
candidates. -/
theorem candidateCount_ten : candidateCount 10 180 = 40 := by
  unfold candidateCount
  rw [show ⌊(10 : ℚ) / 0.35⌋ = 28 by rw [Int.floor_eq_iff] <;> norm_num]
  decide

/-- The first candidate timestamp of a ten-second video. -/
theorem candidateTime_ten_zero : candidateTime 10 180 0 = 167/205 := by
  norm_num [candidateTime, candidateCount_ten, min_def, max_def]

/-! ## Claims -/

/-- C1: for every duration and every list of scored candidates, the picks
returned by the Top-K Selector are pairwise at least 1.0 second apart (so
no timestamp is ever duplicated), and whenever the relaxed second pass
added nothing — i.e. every pick was accepted in the first greedy pass —
the picks are pairwise at least `max(1.2, duration*0.06)` apart. -/
theorem c1_selector_min_spacing (duration : ℚ) (scored : List Scored) :
    (selectTop duration scored).Pairwise (gapOK 1) ∧
    (selectTop duration scored).Pairwise (fun a b => a.ts ≠ b.ts) ∧
    (rawPicks duration scored = pass1Picks duration scored →
      (selectTop duration scored).Pairwise (gapOK (minGapOf duration))) := by
  have h1 : (selectTop duration scored).Pairwise (gapOK 1) :=
    (List.Perm.pairwise_iff (fun hxy => gapOK_symm hxy)
      (sortByTs_perm (rawPicks duration scored))).mpr
      (rawPicks_pairwise duration scored)
  refine ⟨h1, ?_, ?_⟩
  · refine h1.imp ?_
    intro a b hab heq
    unfold gapOK at hab
    rw [heq, sub_self, abs_zero] at hab
    exact absurd hab (by norm_num)
  · intro hfix
    unfold selectTop
    rw [hfix]
    exact (List.Perm.pairwise_iff (fun hxy => gapOK_symm hxy) (sortByTs_perm _)).mpr
      (pass1Picks_pairwise duration scored)

/-- Witness for C1: a singleton pool at duration 10, where the relaxed
pass adds nothing, so the strict-gap conclusion applies. -/
theorem c1_selector_min_spacing_witness :
    rawPicks 10 [⟨1, 1⟩] = pass1Picks 10 [⟨1, 1⟩] ∧
    (selectTop 10 [⟨1, 1⟩]).Pairwise (gapOK (minGapOf 10)) := by
  have hp1 : pass1Picks 10 [⟨1, 1⟩] = [⟨1, 1⟩] := rfl
  have hs : sortScoreDesc [⟨1, 1⟩] = [⟨1, 1⟩] := rfl
  have hfalse : ¬ ∀ p ∈ ([⟨1, 1⟩] : List Scored), gapOK 1 p ⟨1, 1⟩ := by
    simp only [List.forall_mem_cons, List.not_mem_nil]
    intro hall
    have h := hall.1
    rw [gapOK_eval 1 ⟨1, 1⟩ ⟨1, 1⟩ le_rfl] at h
    norm_num at h
  have hraw : rawPicks 10 [⟨1, 1⟩] = [⟨1, 1⟩] := by
    show (if (pass1Picks 10 [⟨1, 1⟩]).length < 5 then
        greedyPass 1 (pass1Picks 10 [⟨1, 1⟩]) (sortScoreDesc [⟨1, 1⟩])
      else pass1Picks 10 [⟨1, 1⟩]) = [⟨1, 1⟩]
    rw [hp1, hs, if_pos (by norm_num)]
    simp only [greedyPass]
    rw [if_neg (by norm_num), if_neg hfalse]
  exact ⟨hraw.trans hp1.symm,
    (c1_selector_min_spacing 10 [⟨1, 1⟩]).2.2 (hraw.trans hp1.symm)⟩

/-- C2 counterexample: at duration `0.1` the clamp
`max(0, min(duration - 0.15, t))` sends the first candidate to `0`,
violating both `duration*0.06 ≤ t` and `t ≤ duration - 0.15`. -/
theorem c2_planner_window_counterexample :
    (0 : ℚ) ∈ makeCandidateTimes (1/10) 180 ∧
    ¬ ((1/10 : ℚ) * 0.06 ≤ (0 : ℚ)) ∧ ¬ ((0 : ℚ) ≤ (1/10 : ℚ) - 0.15) := by
  have hc : candidateCount (1/10) 180 = 40 := by
    unfold candidateCount
    rw [show ⌊(1/10 : ℚ) / 0.35⌋ = 0 by rw [Int.floor_eq_iff] <;> norm_num]
    decide
  refine ⟨?_, by norm_num, by norm_num⟩
  unfold makeCandidateTimes
  refine List.mem_map.mpr ⟨0, List.mem_range.mpr (by rw [hc]; norm_num), ?_⟩
  norm_num [candidateTime, hc, min_def, max_def]

/-- C2 (amended): for every duration of at least 2.5 seconds — which is
exactly when `duration*0.94 ≤ duration - 0.15`, so neither clamp fires —
every timestamp `t` of the Candidate Planner satisfies
`duration*0.06 ≤ t ≤ duration*0.94` and `t ≤ duration - 0.15`, and the
sequence is strictly ascending.  (For smaller durations the clamp can pin
timestamps to `duration - 0.15` or `0`, breaking the bounds and the
strict ascent.) -/
theorem c2_planner_window_amended (d : ℚ) (hd : 5/2 ≤ d) :
    (∀ t ∈ makeCandidateTimes d 180,
      d * 0.06 ≤ t ∧ t ≤ d * 0.94 ∧ t ≤ d - 0.15) ∧
    (makeCandidateTimes d 180).Pairwise (· < ·) := by
  constructor
  · intro t ht
    unfold makeCandidateTimes at ht
    rcases List.mem_map.mp ht with ⟨i, hi, rfl⟩
    obtain ⟨h1, h2, h3⟩ := candidateTime_bounds d hd i (List.mem_range.mp hi)
    exact ⟨le_of_lt h1, le_of_lt h2, h3⟩
  · exact makeCandidateTimes_pairwise_lt d hd

/-- Witness for C2 (amended) at duration 10. -/
theorem c2_planner_window_witness :
    (5/2 : ℚ) ≤ 10 ∧
    ((∀ t ∈ makeCandidateTimes 10 180,
      10 * 0.06 ≤ t ∧ t ≤ 10 * 0.94 ∧ t ≤ 10 - 0.15) ∧
    (makeCandidateTimes 10 180).Pairwise (· < ·)) :=
  ⟨by norm_num, c2_planner_window_amended 10 (by norm_num)⟩

/-- C5: the planner emits exactly
`min(maxCandidates, max(40, floor(duration/0.35)))` timestamps; the count
is monotone in the duration, capped at 180, equals 40 whenever
`floor(duration/0.35) < 40`, and is 171 for a 60-second video. -/
theorem c5_candidate_count (d d' : ℚ) (hd : 0 < d) :
    ((makeCandidateTimes d 180).length : ℤ) = candidateCount d 180 ∧
    (d ≤ d' → candidateCount d 180 ≤ candidateCount d' 180) ∧
    candidateCount d 180 ≤ 180 ∧
    (⌊d / (0.35 : ℚ)⌋ < 40 → candidateCount d 180 = 40) ∧
    (makeCandidateTimes 60 180).length = 171 := by
  refine ⟨?_, fun h => candidateCount_mono h, candidateCount_le d, ?_, ?_⟩
  · rw [length_makeCandidateTimes]
    exact candidateCount_cast_toNat d
  · intro hfl
    unfold candidateCount
    rw [max_eq_left (le_of_lt hfl), min_eq_right (by norm_num)]
  · rw [length_makeCandidateTimes]
    unfold candidateCount
    rw [show ⌊(60 : ℚ) / 0.35⌋ = 171 by rw [Int.floor_eq_iff] <;> norm_num]
    decide

/-- Witness for C5 at durations 1 and 2. -/
theorem c5_candidate_count_witness :
    ((makeCandidateTimes 1 180).length : ℤ) = candidateCount 1 180 ∧
    candidateCount 1 180 ≤ candidateCount 2 180 :=
  ⟨(c5_candidate_count 1 2 (by norm_num)).1,
    (c5_candidate_count 1 2 (by norm_num)).2.1 (by norm_num)⟩

/-- C6 counterexample: at duration 0 the planner neither fails nor
returns the empty sequence — it returns a 40-element list. -/
theorem c6_nonpositive_counterexample :
    makeCandidateTimes 0 180 ≠ [] ∧ (makeCandidateTimes 0 180).length = 40 := by
  have hlen : (makeCandidateTimes 0 180).length = 40 := by
    rw [length_makeCandidateTimes, candidateCount_of_nonpos 0 le_rfl]
    rfl
  refine ⟨?_, hlen⟩
  intro hnil
  rw [hnil] at hlen
  simp at hlen

/-- C6 (amended): for every duration ≤ 0 the Candidate Planner returns a
list of exactly 40 timestamps, all equal to 0 (the empty span makes every
unclamped timestamp `duration*0.06 ≤ 0`, and the clamp maps it to 0); it
neither fails nor returns the empty sequence. -/
theorem c6_nonpositive_duration_amended (d : ℚ) (hd : d ≤ 0) :
    (makeCandidateTimes d 180).length = 40 ∧
    ∀ t ∈ makeCandidateTimes d 180, t = 0 := by
  constructor
  · rw [length_makeCandidateTimes, candidateCount_of_nonpos d hd]
    rfl
  · intro t ht
    unfold makeCandidateTimes at ht
    rcases List.mem_map.mp ht with ⟨i, _, rfl⟩
    exact candidateTime_of_nonpos d hd i

/-- Witness for C6 (amended) at duration 0. -/
theorem c6_nonpositive_duration_witness :
    (0 : ℚ) ≤ 0 ∧
    ((makeCandidateTimes 0 180).length = 40 ∧
      ∀ t ∈ makeCandidateTimes 0 180, t = 0) :=
  ⟨le_rfl, c6_nonpositive_duration_amended 0 le_rfl⟩

/-- C3 counterexample: at duration 10 the timestamp `167/205` (the first
candidate) occurs exactly once in the candidate list; an extraction
oracle failing on that single candidate and succeeding on all others
makes the whole selection run fail — the error is propagated to the
caller instead of the candidate being skipped. -/
theorem c3_extraction_failure_counterexample :
    (167/205 : ℚ) ∈ makeCandidateTimes 10 180 ∧
    (makeCandidateTimes 10 180).count (167/205 : ℚ) = 1 ∧
    autoPickTop5Times (Except.ok 10)
      (fun ts => if ts = (167/205 : ℚ) then Except.error () else Except.ok ())
      (fun _ => 1/2) = Except.error () := by
  have hmem : (167/205 : ℚ) ∈ makeCandidateTimes 10 180 := by
    unfold makeCandidateTimes
    refine List.mem_map.mpr ⟨0, List.mem_range.mpr (by rw [candidateCount_ten]; norm_num), ?_⟩
    exact candidateTime_ten_zero
  have hnodup : (makeCandidateTimes 10 180).Nodup :=
    (makeCandidateTimes_pairwise_lt 10 (by norm_num)).imp ne_of_lt
  refine ⟨hmem, List.count_eq_one_of_mem hnodup hmem, ?_⟩
  have hbad : ¬ ((scoreLoop
      (fun ts => if ts = (167/205 : ℚ) then Except.error () else Except.ok ())
      (fun _ => 1/2) (makeCandidateTimes 10 180)).isOk = true) := by
    rw [scoreLoop_isOk_iff]
    intro hall
    have h := hall (167/205) hmem
    rw [if_pos rfl] at h
    simp [Except.isOk, Except.toBool] at h
  have herr := except_unit_eq_error _ hbad
  show (match scoreLoop
      (fun ts => if ts = (167/205 : ℚ) then Except.error () else Except.ok ())
      (fun _ => 1/2) (makeCandidateTimes 10 180) with
    | Except.error e => Except.error e
    | Except.ok scored => Except.ok ((10 : ℚ), selectTop 10 scored)) = Except.error ()
  rw [herr]

/-- C3 (amended): an extraction failure for any candidate during the
scoring loop aborts the whole run — `autoPickTop5Times` succeeds exactly
when extraction succeeds on every planned candidate, so a per-candidate
extraction failure IS propagated to the caller as a run-level failure
(only statistics failures inside `scoreFrameJpg` are absorbed
per-candidate). -/
theorem c3_extraction_failure_amended (d : ℚ) (extract : ℚ → Except Unit Unit)
    (scoreOf : ℚ → ℚ) :
    ((autoPickTop5Times (Except.ok d) extract scoreOf).isOk = true ↔
      ∀ c ∈ makeCandidateTimes d 180, (extract c).isOk = true) ∧
    ∀ l : List ℚ, (scoreLoop extract scoreOf l).isOk = true ↔
      ∀ c ∈ l, (extract c).isOk = true := by
  refine ⟨?_, scoreLoop_isOk_iff extract scoreOf⟩
  rw [← scoreLoop_isOk_iff extract scoreOf (makeCandidateTimes d 180)]
  show (match scoreLoop extract scoreOf (makeCandidateTimes d 180) with
    | Except.error e => Except.error e
    | Except.ok scored => Except.ok ((d : ℚ), selectTop d scored)).isOk = true ↔
    (scoreLoop extract scoreOf (makeCandidateTimes d 180)).isOk = true
  cases h : scoreLoop extract scoreOf (makeCandidateTimes d 180) with
  | error e => simp [Except.isOk, Except.toBool]
  | ok l => simp [Except.isOk, Except.toBool]

/-- Nonnegativity and boundedness of the exposure signal. -/
theorem exposureOf_mem_unit (y : ℚ) : 0 ≤ exposureOf y ∧ exposureOf y ≤ 1 := by
  unfold exposureOf
  have h0 : (0 : ℚ) ≤ |y - 128| / 128 := by positivity
  have h1 : min (1 : ℚ) (|y - 128| / 128) ≤ 1 := min_le_left _ _
  have h2 : (0 : ℚ) ≤ min (1 : ℚ) (|y - 128| / 128) := le_min (by norm_num) h0
  constructor <;> linarith

/-- Nonnegativity and boundedness of the contrast signal (the raw
standard deviation coming from `signalstats` is nonnegative). -/
theorem contrastOf_mem_unit (s : ℚ) (hs : 0 ≤ s) :
    0 ≤ contrastOf s ∧ contrastOf s ≤ 1 := by
  unfold contrastOf
  exact ⟨le_min (by norm_num) (by positivity), min_le_left _ _⟩

/-- Nonnegativity and boundedness of the sharpness signal. -/
theorem sharpnessOf_mem_unit (e : ℚ) (he : 0 ≤ e) :
    0 ≤ sharpnessOf e ∧ sharpnessOf e ≤ 1 := by
  unfold sharpnessOf
  exact ⟨le_min (by norm_num) (by positivity), min_le_left _ _⟩

/-- C4: the Frame Scorer's result is the weighted combination
`0.45*exposure + 0.30*contrast + 0.25*sharpness` of the three normalized
signals and lies in `[0,1]` (the raw `signalstats` values, matched by the
regex `[0-9.]+`, are nonnegative, which the two hypotheses record); with
`Y=128, S=64, E=40` it is exactly 1, and with total statistics failure it
is exactly 0. -/
theorem c4_scorer_range (base edgeRun : Option SignalStats)
    (hystd : ∀ b, base = some b → 0 ≤ finiteOr b.ystd 0)
    (hedge : 0 ≤ finiteOr (edgeRun.getD emptyStats).yavg 0) :
    (0 ≤ scoreFrameJpg base edgeRun ∧ scoreFrameJpg base edgeRun ≤ 1) ∧
    (∀ b, base = some b → scoreFrameJpg base edgeRun =
      0.45 * exposureOf (finiteOr b.yavg 128) +
      0.30 * contrastOf (finiteOr b.ystd 0) +
      0.25 * sharpnessOf (finiteOr (edgeRun.getD emptyStats).yavg 0)) ∧
    scoreFrameJpg (some ⟨some (JSNumber.finite 128), some (JSNumber.finite 64)⟩)
      (some ⟨some (JSNumber.finite 40), none⟩) = 1 ∧
    (∀ e, scoreFrameJpg none e = 0) := by
  have hsynth : scoreFrameJpg (some ⟨some (JSNumber.finite 128), some (JSNumber.finite 64)⟩)
      (some ⟨some (JSNumber.finite 40), none⟩) = 1 := by
    norm_num [scoreFrameJpg, exposureOf, contrastOf, sharpnessOf, finiteOr]
  refine ⟨?_, ?_, hsynth, fun e => rfl⟩
  · cases base with
    | none => norm_num [scoreFrameJpg]
    | some b =>
      obtain ⟨he1, he2⟩ := exposureOf_mem_unit (finiteOr b.yavg 128)
      obtain ⟨hc1, hc2⟩ := contrastOf_mem_unit (finiteOr b.ystd 0) (hystd b rfl)
      obtain ⟨hs1, hs2⟩ := sharpnessOf_mem_unit (finiteOr (edgeRun.getD emptyStats).yavg 0) hedge
      simp only [scoreFrameJpg]
      constructor <;> nlinarith
  · intro b hb
    subst hb
    simp only [scoreFrameJpg]
    ring

/-- Witness for C4: base statistics present but empty (all fields fall
back to their defaults), edge pass failed. -/
theorem c4_scorer_range_witness :
    (0 ≤ scoreFrameJpg (some emptyStats) none ∧ scoreFrameJpg (some emptyStats) none ≤ 1) ∧
    (∀ b, (some emptyStats : Option SignalStats) = some b →
      scoreFrameJpg (some emptyStats) none =
        0.45 * exposureOf (finiteOr b.yavg 128) +
        0.30 * contrastOf (finiteOr b.ystd 0) +
        0.25 * sharpnessOf (finiteOr ((none : Option SignalStats).getD emptyStats).yavg 0)) ∧
    scoreFrameJpg (some ⟨some (JSNumber.finite 128), some (JSNumber.finite 64)⟩)
      (some ⟨some (JSNumber.finite 40), none⟩) = 1 ∧
    (∀ e, scoreFrameJpg none e = 0) :=
  c4_scorer_range (some emptyStats) none
    (by intro b hb; cases hb; exact le_refl 0) (le_refl 0)

/-- C7: the Frame Scorer is a total function of its statistics inputs
(the embedding returns a rational for every input, modelling "never
raises").  Base-statistics failure short-circuits to 0; edge-statistics
failure behaves exactly like a successful edge pass with an empty
dictionary, forcing the sharpness contribution to 0; and each individual
field that is absent or non-finite (NaN) behaves exactly as its neutral
default — `YAVG` as 128, `YSTD` as 0, edge `YAVG` as 0. -/
theorem c7_scorer_degradation :
    (∀ e, scoreFrameJpg none e = 0) ∧
    (∀ b, scoreFrameJpg (some b) none = scoreFrameJpg (some b) (some emptyStats)) ∧
    (∀ b, scoreFrameJpg (some b) none =
      0.45 * exposureOf (finiteOr b.yavg 128) +
      0.30 * contrastOf (finiteOr b.ystd 0) + 0.25 * 0) ∧
    (∀ s e, scoreFrameJpg (some ⟨none, s⟩) e =
      scoreFrameJpg (some ⟨some (JSNumber.finite 128), s⟩) e) ∧
    (∀ s e, scoreFrameJpg (some ⟨some JSNumber.nan, s⟩) e =
      scoreFrameJpg (some ⟨some (JSNumber.finite 128), s⟩) e) ∧
    (∀ y e, scoreFrameJpg (some ⟨y, none⟩) e =
      scoreFrameJpg (some ⟨y, some (JSNumber.finite 0)⟩) e) ∧
    (∀ y e, scoreFrameJpg (some ⟨y, some JSNumber.nan⟩) e =
      scoreFrameJpg (some ⟨y, some (JSNumber.finite 0)⟩) e) ∧
    (∀ b s, scoreFrameJpg (some b) (some ⟨none, s⟩) =
      scoreFrameJpg (some b) (some ⟨some (JSNumber.finite 0), s⟩)) ∧
    (∀ b s, scoreFrameJpg (some b) (some ⟨some JSNumber.nan, s⟩) =
      scoreFrameJpg (some b) (some ⟨some (JSNumber.finite 0), s⟩)) := by
  refine ⟨fun e => rfl, fun b => rfl, ?_, fun s e => rfl, fun s e => rfl,
    fun y e => rfl, fun y e => rfl, fun b s => rfl, fun b s => rfl⟩
  intro b
  simp only [scoreFrameJpg, Option.getD]
  have hsharp : sharpnessOf (finiteOr emptyStats.yavg 0) = 0 := by
    norm_num [sharpnessOf, finiteOr, emptyStats]
  rw [hsharp]
  ring

/-- C8 counterexample: a missing (empty) duration report does NOT make
the prober fail — ECMAScript `Number("")` is 0, `Number.isFinite(0)`
holds, and the prober returns duration 0 instead of raising. -/
theorem c8_prober_counterexample :
    ffprobeDurationSeconds [] = Except.ok 0 ∧
    jsNumberOfChars (jsTrim []) = JSNumber.finite 0 :=
  ⟨rfl, rfl⟩

/-- C8 (amended): the prober returns the reported duration and fails
exactly when the trimmed tool output does not convert to a finite number
under ECMAScript `Number` semantics: non-numeric text (and the
`Infinity` literals) raise, numeric text returns its value — but a
missing/empty report converts to 0 and is returned as duration 0 rather
than failing. -/
theorem c8_prober_amended (stdout : List Char) :
    ((ffprobeDurationSeconds stdout).isOk = true ↔
      ∃ q, jsNumberOfChars (jsTrim stdout) = JSNumber.finite q) ∧
    (∀ q, jsNumberOfChars (jsTrim stdout) = JSNumber.finite q →
      ffprobeDurationSeconds stdout = Except.ok q) ∧
    ((∀ q, jsNumberOfChars (jsTrim stdout) ≠ JSNumber.finite q) →
      ffprobeDurationSeconds stdout = Except.error ()) := by
  unfold ffprobeDurationSeconds
  cases h : jsNumberOfChars (jsTrim stdout) with
  | nan =>
    refine ⟨by simp [Except.isOk, Except.toBool], ?_, fun _ => rfl⟩
    intro q hq
    cases hq
  | posInf =>
    refine ⟨by simp [Except.isOk, Except.toBool], ?_, fun _ => rfl⟩
    intro q hq
    cases hq
  | negInf =>
    refine ⟨by simp [Except.isOk, Except.toBool], ?_, fun _ => rfl⟩
    intro q hq
    cases hq
  | finite q =>
    refine ⟨by simp [Except.isOk, Except.toBool], ?_, ?_⟩
    · intro q' hq'
      injection hq' with h'
      rw [h']
    · intro hq
      exact absurd rfl (hq q)

/-- Witness for C8 (amended): non-numeric output makes the prober fail. -/
theorem c8_prober_witness :
    (∀ q : ℚ, jsNumberOfChars (jsTrim ['a']) ≠ JSNumber.finite q) ∧
    ffprobeDurationSeconds ['a'] = Except.error () := by
  have hnan : jsNumberOfChars (jsTrim ['a']) = JSNumber.nan := by decide
  have hne : ∀ q : ℚ, jsNumberOfChars (jsTrim ['a']) ≠ JSNumber.finite q := by
    intro q h
    rw [hnan] at h
    cases h
  exact ⟨hne, (c8_prober_amended ['a']).2.2 hne⟩

/-- C9 counterexample: a two-element pool (fewer than 5) whose
timestamps are half a second apart.  The gap rules reject the second
candidate in both passes, so the selector does NOT return all of the
pool. -/
theorem c9_small_pool_counterexample :
    ([⟨2, 1⟩, ⟨5/2, 1/2⟩] : List Scored).length < 5 ∧
    (⟨5/2, 1/2⟩ : Scored) ∈ ([⟨2, 1⟩, ⟨5/2, 1/2⟩] : List Scored) ∧
    (⟨5/2, 1/2⟩ : Scored) ∉ selectTop 10 [⟨2, 1⟩, ⟨5/2, 1/2⟩] := by
  have hsort : sortScoreDesc [⟨2, 1⟩, ⟨5/2, 1/2⟩] = [⟨2, 1⟩, ⟨5/2, 1/2⟩] := by
    norm_num [sortScoreDesc, List.insertionSort, List.orderedInsert, scoreGE]
  have hmg : minGapOf 10 = 6/5 := by
    rw [minGapOf, max_eq_left] <;> norm_num
  have hgapfail : ¬ ∀ p ∈ ([⟨2, 1⟩] : List Scored), gapOK (6/5) p ⟨5/2, 1/2⟩ := by
    simp only [List.forall_mem_cons, List.not_mem_nil]
    intro hall
    have h := hall.1
    rw [gapOK_eval _ ⟨2, 1⟩ ⟨5/2, 1/2⟩ (by norm_num)] at h
    norm_num at h
  have hself : ¬ ∀ p ∈ ([⟨2, 1⟩] : List Scored), gapOK 1 p ⟨2, 1⟩ := by
    simp only [List.forall_mem_cons, List.not_mem_nil]
    intro hall
    have h := hall.1
    rw [gapOK_eval 1 ⟨2, 1⟩ ⟨2, 1⟩ le_rfl] at h
    norm_num at h
  have hgap2 : ¬ ∀ p ∈ ([⟨2, 1⟩] : List Scored), gapOK 1 p ⟨5/2, 1/2⟩ := by
    simp only [List.forall_mem_cons, List.not_mem_nil]
    intro hall
    have h := hall.1
    rw [gapOK_eval 1 ⟨2, 1⟩ ⟨5/2, 1/2⟩ (by norm_num)] at h
    norm_num at h
  have hpass1 : pass1Picks 10 [⟨2, 1⟩, ⟨5/2, 1/2⟩] = [⟨2, 1⟩] := by
    unfold pass1Picks
    rw [hsort, hmg]
    simp only [greedyPass]
    rw [if_neg (by norm_num), if_pos (by simp), if_neg (by norm_num),
      if_neg (by simpa using hgapfail)]
    simp
  have hraw : rawPicks 10 [⟨2, 1⟩, ⟨5/2, 1/2⟩] = [⟨2, 1⟩] := by
    show (if (pass1Picks 10 [⟨2, 1⟩, ⟨5/2, 1/2⟩]).length < 5 then
        greedyPass 1 (pass1Picks 10 [⟨2, 1⟩, ⟨5/2, 1/2⟩])
          (sortScoreDesc [⟨2, 1⟩, ⟨5/2, 1/2⟩])
      else pass1Picks 10 [⟨2, 1⟩, ⟨5/2, 1/2⟩]) = [⟨2, 1⟩]
    rw [hpass1, hsort, if_pos (by norm_num)]
    simp only [greedyPass]
    rw [if_neg (by norm_num), if_neg hself, if_neg (by norm_num), if_neg hgap2]
  have hsel : selectTop 10 [⟨2, 1⟩, ⟨5/2, 1/2⟩] = [⟨2, 1⟩] := by
    unfold selectTop
    rw [hraw]
    rfl
  refine ⟨by norm_num, by simp, ?_⟩
  rw [hsel]
  simp only [List.mem_singleton, Scored.mk.injEq, not_and]
  intro h
  norm_num at h

/-- Two candidates separated by a positive gap are distinct. -/
theorem gapOK_ne {g : ℚ} (hg : 0 < g) {a b : Scored} (h : gapOK g a b) :
    a ≠ b := by
  intro heq
  subst heq
  unfold gapOK at h
  rw [sub_self, abs_zero] at h
  exact absurd h (not_le.mpr hg)

/-- A pairwise-gapped list relates any two of its distinct members. -/
theorem pairwise_gap_forall {g : ℚ} {l : List Scored}
    (h : l.Pairwise (gapOK g)) :
    ∀ a ∈ l, ∀ b ∈ l, a ≠ b → gapOK g a b :=
  fun _ ha _ hb hne => h.forall (fun _ _ hxy => gapOK_symm hxy) ha hb hne

/-- When the walked candidates all come from a pool of fewer than five
pairwise-gapped entries, a greedy pass accepts every one of them: an
entry already picked is skipped, any other entry passes the gap test
against the current picks (all of which are pool members), and the
five-pick break never fires. -/
theorem greedyPass_mem_of_all (g : ℚ) (hg : 0 < g) (S : List Scored)
    (hS : S.Pairwise (gapOK g)) (hlen : S.length < 5) :
    ∀ l init : List Scored, (∀ x ∈ l, x ∈ S) → (∀ x ∈ init, x ∈ S) →
      init.Nodup → ∀ x ∈ l, x ∈ greedyPass g init l := by
  intro l
  induction l with
  | nil => intro init _ _ _ x hx; cases hx
  | cons item rest ih =>
    intro init hlS hinitS hnodup x hx
    have hbreak : ¬ 5 ≤ init.length := by
      have := (hnodup.subperm hinitS).length_le
      omega
    simp only [greedyPass]
    rw [if_neg hbreak]
    by_cases hmem : item ∈ init
    · have hnot : ¬ ∀ p ∈ init, gapOK g p item := by
        intro hall
        exact absurd rfl (gapOK_ne hg (hall item hmem))
      rw [if_neg hnot]
      rcases List.mem_cons.mp hx with rfl | hx'
      · exact greedyPass_mem_init _ _ _ x hmem
      · exact ih init (fun y hy => hlS y (List.mem_cons_of_mem _ hy)) hinitS hnodup x hx'
    · have hall : ∀ p ∈ init, gapOK g p item := by
        intro p hp
        refine pairwise_gap_forall hS p (hinitS p hp) item
          (hlS item (List.mem_cons_self _ _)) ?_
        intro heq
        rw [heq] at hp
        exact hmem hp
      rw [if_pos hall]
      have hinitS' : ∀ y ∈ init ++ [item], y ∈ S := by
        intro y hy
        rcases List.mem_append.mp hy with h' | h'
        · exact hinitS y h'
        · rw [List.mem_singleton.mp h']
          exact hlS item (List.mem_cons_self _ _)
      have hnodup' : (init ++ [item]).Nodup := by
        rw [List.nodup_append]
        refine ⟨hnodup, List.nodup_singleton _, ?_⟩
        intro a ha hb
        rw [List.mem_singleton.mp hb] at ha
        exact hmem ha
      rcases List.mem_cons.mp hx with rfl | hx'
      · exact greedyPass_mem_init _ _ _ x
          (List.mem_append.mpr (Or.inr (List.mem_singleton_self _)))
      · exact ih (init ++ [item]) (fun y hy => hlS y (List.mem_cons_of_mem _ hy))
          hinitS' hnodup' x hx'

/-- C9 (amended): when the pool has fewer than 5 scored entries and its
timestamps are pairwise at least 1.0 second apart, the selector returns
all of them, sorted chronologically (a permutation of the pool sorted
ascending by timestamp): the first pass may drop entries closer than
`minGap`, but with fewer than 5 picks the relaxed 1.0-second pass always
runs and re-adds every entry at least 1.0 second from all picks.  Only
entries closer than 1.0 second to another pick are dropped — see the
counterexample. -/
theorem c9_small_pool_amended (d : ℚ) (scored : List Scored)
    (hlen : scored.length < 5)
    (hgap : scored.Pairwise (gapOK 1)) :
    (selectTop d scored).Perm scored ∧ List.Sorted tsLE (selectTop d scored) := by
  have hperm := sortScoreDesc_perm scored
  have hS : (sortScoreDesc scored).Pairwise (gapOK 1) :=
    (List.Perm.pairwise_iff (fun hxy => gapOK_symm hxy) hperm).mpr hgap
  have hSlen : (sortScoreDesc scored).length < 5 := by
    rw [hperm.length_eq]
    exact hlen
  have hSnodup : (sortScoreDesc scored).Nodup :=
    hS.imp fun hab => gapOK_ne one_pos hab
  have hPsub : ∀ x ∈ pass1Picks d scored, x ∈ sortScoreDesc scored := by
    intro x hx
    rcases greedyPass_subset _ _ [] x hx with h' | h'
    · exact absurd h' (List.not_mem_nil x)
    · exact h'
  have hPnodup : (pass1Picks d scored).Nodup :=
    (pass1Picks_pairwise d scored).imp fun hab =>
      gapOK_ne (lt_of_lt_of_le one_pos (one_le_minGapOf d)) hab
  have hPlen : (pass1Picks d scored).length < 5 := by
    have := (hPnodup.subperm hPsub).length_le
    omega
  have hraw : rawPicks d scored =
      greedyPass 1 (pass1Picks d scored) (sortScoreDesc scored) := by
    show (if (pass1Picks d scored).length < 5 then
        greedyPass 1 (pass1Picks d scored) (sortScoreDesc scored)
      else pass1Picks d scored) = _
    rw [if_pos hPlen]
  have hsup : ∀ x ∈ sortScoreDesc scored, x ∈ rawPicks d scored := by
    rw [hraw]
    exact greedyPass_mem_of_all 1 one_pos _ hS hSlen _ _
      (fun x hx => hx) hPsub hPnodup
  have hsub : ∀ x ∈ rawPicks d scored, x ∈ sortScoreDesc scored := by
    intro x hx
    rw [hraw] at hx
    rcases greedyPass_subset _ _ _ x hx with h' | h'
    · exact hPsub x h'
    · exact h'
  have hrawnodup : (rawPicks d scored).Nodup :=
    (rawPicks_pairwise d scored).imp fun hab => gapOK_ne one_pos hab
  have hrawperm : (rawPicks d scored).Perm (sortScoreDesc scored) := by
    rw [List.perm_ext_iff_of_nodup hrawnodup hSnodup]
    intro a
    exact ⟨fun h => hsub a h, fun h => hsup a h⟩
  constructor
  · show (sortByTs (rawPicks d scored)).Perm scored
    exact (sortByTs_perm _).trans (hrawperm.trans hperm)
  · exact sortByTs_sorted _

/-- Witness for C9 (amended): a two-element pool whose gap (1.1s) is
below `minGap = 1.2` but at least 1.0s — the first pass drops the second
entry, the relaxed pass restores it, and both are returned. -/
theorem c9_small_pool_witness :
    (([⟨2, 1⟩, ⟨31/10, 1/2⟩] : List Scored).length < 5 ∧
      ([⟨2, 1⟩, ⟨31/10, 1/2⟩] : List Scored).Pairwise (gapOK 1)) ∧
    ((selectTop 10 [⟨2, 1⟩, ⟨31/10, 1/2⟩]).Perm [⟨2, 1⟩, ⟨31/10, 1/2⟩] ∧
      List.Sorted tsLE (selectTop 10 [⟨2, 1⟩, ⟨31/10, 1/2⟩])) := by
  have hgap : ([⟨2, 1⟩, ⟨31/10, 1/2⟩] : List Scored).Pairwise (gapOK 1) := by
    refine List.pairwise_cons.mpr ⟨?_, List.pairwise_singleton _ _⟩
    intro b hb
    rw [List.mem_singleton] at hb
    subst hb
    rw [gapOK_eval 1 ⟨2, 1⟩ ⟨31/10, 1/2⟩ (by norm_num)]
    norm_num
  exact ⟨⟨by norm_num, hgap⟩, c9_small_pool_amended 10 _ (by norm_num) hgap⟩

/-- C10: for every non-empty pool the selector's result is non-empty,
contains a candidate of maximal score (the head of the score-descending
order is unconditionally accepted, the gap check over the empty pick set
being vacuous), and every returned pick is an element of the input pool
(timestamps and scores unchanged, picks being input values). -/
theorem c10_selector_top_pick (d : ℚ) (scored : List Scored)
    (h : scored ≠ []) :
    selectTop d scored ≠ [] ∧
    (∃ p ∈ selectTop d scored, ∀ q ∈ scored, q.score ≤ p.score) ∧
    (∀ p ∈ selectTop d scored, p ∈ scored) := by
  have hperm := sortScoreDesc_perm scored
  have hsne : sortScoreDesc scored ≠ [] := by
    intro hnil
    apply h
    have hl := hperm.length_eq
    rw [hnil] at hl
    exact List.length_eq_zero.mp hl.symm
  obtain ⟨p0, tl, hcons⟩ := List.exists_cons_of_ne_nil hsne
  have hmax : ∀ q ∈ scored, q.score ≤ p0.score := by
    intro q hq
    have hq' : q ∈ sortScoreDesc scored := hperm.symm.subset hq
    rw [hcons] at hq'
    rcases List.mem_cons.mp hq' with rfl | hq''
    · exact le_rfl
    · have hsorted := sortScoreDesc_sorted scored
      rw [hcons] at hsorted
      exact List.rel_of_sorted_cons hsorted q hq''
  have hmem1 : p0 ∈ pass1Picks d scored := by
    unfold pass1Picks
    rw [hcons]
    simp only [greedyPass]
    rw [if_neg (by norm_num), if_pos (by simp)]
    exact greedyPass_mem_init _ _ _ p0 (by simp)
  have hmemraw : p0 ∈ rawPicks d scored := by
    show p0 ∈ (if (pass1Picks d scored).length < 5 then
        greedyPass 1 (pass1Picks d scored) (sortScoreDesc scored)
      else pass1Picks d scored)
    split
    · exact greedyPass_mem_init _ _ _ p0 hmem1
    · exact hmem1
  have hmemsel : p0 ∈ selectTop d scored :=
    (List.Perm.mem_iff (sortByTs_perm _)).mpr hmemraw
  refine ⟨List.ne_nil_of_mem hmemsel, ⟨p0, hmemsel, hmax⟩, ?_⟩
  intro p hp
  have hp' : p ∈ rawPicks d scored := (List.Perm.mem_iff (sortByTs_perm _)).mp hp
  have hpass1sub : ∀ x ∈ pass1Picks d scored, x ∈ sortScoreDesc scored := by
    intro x hx
    rcases greedyPass_subset _ _ [] x hx with h' | h'
    · exact absurd h' (List.not_mem_nil x)
    · exact h'
  have hsortmem : p ∈ sortScoreDesc scored := by
    revert hp'
    show p ∈ (if (pass1Picks d scored).length < 5 then
        greedyPass 1 (pass1Picks d scored) (sortScoreDesc scored)
      else pass1Picks d scored) → p ∈ sortScoreDesc scored
    intro hp'
    split at hp'
    · rcases greedyPass_subset _ _ _ p hp' with h' | h'
      · exact hpass1sub p h'
      · exact h'
    · exact hpass1sub p hp'
  exact hperm.subset hsortmem

/-- Witness for C10: a singleton pool. -/
theorem c10_selector_top_pick_witness :
    ([⟨(1 : ℚ), (1 : ℚ)⟩] : List Scored) ≠ [] ∧
    (selectTop 10 [⟨1, 1⟩] ≠ [] ∧
      (∃ p ∈ selectTop 10 [⟨1, 1⟩],
        ∀ q ∈ ([⟨1, 1⟩] : List Scored), q.score ≤ p.score) ∧
      (∀ p ∈ selectTop 10 [⟨1, 1⟩], p ∈ ([⟨1, 1⟩] : List Scored))) :=
  ⟨by simp, c10_selector_top_pick 10 [⟨1, 1⟩] (by simp)⟩

end Thumbnail
